import Mathlib

/-! ## cerror: chained error values

A shallow embedding of `src/cerror.go` (package `cerror`) and the properties of its
chain operations.

Go pointers are modelled by addresses into an explicit heap.  An `Error` value is a Go
struct value; its `ComesFrom` field is a pointer (`none` is `nil`) and its `Meta` field is a
map reference (`none` is the `nil` map).  Go is memory safe, so every non-nil pointer refers
to an object: dereferencing is a total function of the heap.  A chain that loops back on
itself is an ordinary heap in this model.
-/

namespace cerror

set_option linter.dupNamespace false

/-! ## Data model -/

/-- An address of a heap object (a Go pointer that is not nil). -/
abbrev Addr := Nat

/-- The type `xerrors.Frame`: a struct holding three program counters. -/
structure Frame where
  pc0 : Nat
  pc1 : Nat
  pc2 : Nat
deriving DecidableEq, Repr

/-- The zero value of `xerrors.Frame`. -/
def Frame.zero : Frame := ⟨0, 0, 0⟩

/-- The type `Severity` of `severity.go`: a named string type. -/
abbrev Severity := String

/-- The struct `Error` of `cerror.go`.  `Type_` is the field `Type`, a `codes.Code` (an
unsigned integer; `Type` is a reserved word here),
`Meta` is a reference to a map object or nil, `ComesFrom` is a pointer to an `Error` or nil. -/
structure Error where
  Description : String
  Type_ : Nat
  Code : String
  Cause : String
  IsSensible : Bool
  Severity : Severity
  Meta : Option Addr
  ComesFrom : Option Addr
  Frame : Frame
deriving DecidableEq, Repr

/-- The zero value `Error{}`. -/
def Error.zero : Error :=
  { Description := "", Type_ := 0, Code := "", Cause := "", IsSensible := false,
    Severity := "", Meta := none, ComesFrom := none, Frame := Frame.zero }

/-- The heap: the `Error` object every pointer refers to, the contents of every map object
(an association list, at most one entry per key), and the next addresses to be allocated. -/
structure Heap where
  errs : Addr → Error
  maps : Addr → List (String × String)
  nextErr : Addr
  nextMap : Addr

/-- The constant `PrimitiveErrorTag`. -/
def PrimitiveErrorTag : String := "PRIMITIVE_ERROR"

/-- The constant `maxDep`. -/
def maxDep : Nat := 1000

/-- The package variable `Nil = Error{Code: ""}`. -/
def Nil : Error := { Error.zero with Code := "" }

/-! ## Chain traversal -/

/-- The loop of `GetParents`: `cont` is the counter, `currentErr` the node the pointer
`currentErr` refers to, `list` the slice built so far.  One unit of `fuel` is one iteration;
`none` means the fuel ran out before the loop was left. -/
def GetParents.loop (h : Heap) : Nat → Nat → Error → List Addr → Option (List Addr)
  | 0, _, _, _ => none
  | fuel + 1, cont, currentErr, list =>
    let cont := cont + 1
    match currentErr.ComesFrom with
    | none => some list
    | some p =>
      if cont > maxDep then some list
      else GetParents.loop h fuel cont (h.errs p) (list ++ [p])

/-- The method `func (err Error) GetParents() []*Error`, run for at most `fuel` iterations of
its loop. -/
def Error.GetParents (fuel : Nat) (h : Heap) (err : Error) : Option (List Addr) :=
  GetParents.loop h fuel 0 err []

/-- The result of running a method that may panic or loop. -/
inductive Outcome (α : Type) where
  /-- The call returns a value. -/
  | ret (a : α)
  /-- The call panics with a message. -/
  | panic (msg : String)
  /-- The fuel ran out before the call returned. -/
  | outOfFuel

/-- The loop of `Is`: `current` is the node the pointer `current` refers to (`none` when the
pointer is nil).  One unit of `fuel` is one iteration; `none` means the fuel ran out. -/
def Is.loop (h : Heap) (target : Error) : Nat → Option Error → Option Bool
  | 0, _ => none
  | fuel + 1, current =>
    match current with
    | none => some false
    | some c =>
      if c.Code = target.Code then some true
      else Is.loop h target fuel (c.ComesFrom.map h.errs)

/-- The method `func (err Error) Is(target Error) bool`. -/
def Error.Is (fuel : Nat) (h : Heap) (err : Error) (target : Error) : Option Bool :=
  Is.loop h target fuel (some err)

/-- The loop of `As`, for a target pointer that is not nil.  On a match `*target = *current`
stores the current node at the target address. -/
def As.loop (h : Heap) (target : Addr) : Nat → Option Error → Outcome (Bool × Heap)
  | 0, _ => .outOfFuel
  | fuel + 1, current =>
    match current with
    | none => .ret (false, h)
    | some c =>
      if c.Code = (h.errs target).Code then
        .ret (true, { h with errs := Function.update h.errs target c })
      else As.loop h target fuel (c.ComesFrom.map h.errs)

/-- The method `func (err Error) As(target *Error) bool`. -/
def Error.As (fuel : Nat) (h : Heap) (err : Error) (target : Option Addr) :
    Outcome (Bool × Heap) :=
  match target with
  | none => .panic "errors: target cannot be nil"
  | some t => As.loop h t fuel (some err)

/-- The method `func (err Error) IsError() bool`. -/
def Error.IsError (err : Error) : Bool :=
  decide (err.Code ≠ Nil.Code) || err.ComesFrom.isSome

/-- The method `func (err Error) Equals(err2 Error) bool`. -/
def Error.Equals (err err2 : Error) : Bool :=
  decide (err.Code = err2.Code)

/-! ## Parameter substitution

`strconv.Itoa` and `strings.Replace` belong to the Go standard library.  Strings are taken
as sequences of characters (valid text); a placeholder starts with an ASCII brace, so
matching characters and matching bytes find the same occurrences. -/

/-- Modelled from the spec: the standard library function `strconv.Itoa` (not part of the
repository), the decimal writing of an integer, with a leading minus sign when negative. -/
def strconv.Itoa (i : Int) : String :=
  if i < 0 then "-" ++ Nat.repr i.natAbs else Nat.repr i.toNat

/-- Modelled from the spec: the standard library function `strings.Index` (not part of the
repository) on character sequences: the position of the first occurrence of `substr` in `s`,
`none` when there is none (Go returns -1). -/
def strings.Index : List Char → List Char → Option Nat
  | [], substr => if substr = [] then some 0 else none
  | c :: s, substr =>
    if substr.isPrefixOf (c :: s) then some 0
    else (strings.Index s substr).map (· + 1)

/-- Replacement of the first `m` occurrences of a non-empty `old`, left to right, each search
resuming after the occurrence replaced before it. -/
def strings.Replace.apply (old new : List Char) : Nat → List Char → List Char
  | 0, s => s
  | m + 1, s =>
    match strings.Index s old with
    | none => s
    | some j => s.take j ++ new ++ strings.Replace.apply old new m (s.drop (j + old.length))

/-- Replacement of an empty `old` after the first insertion: `new` is inserted after each of
the next `m` characters. -/
def strings.Replace.insert (new : List Char) : Nat → List Char → List Char
  | 0, s => s
  | _ + 1, [] => []
  | m + 1, c :: s => c :: (new ++ strings.Replace.insert new m s)

/-- Modelled from the spec: the standard library function `strings.Replace` (not part of the
repository): a copy of `s` with the first `n` non-overlapping occurrences of `old` replaced
by `new`, all of them when `n < 0`; an empty `old` matches at the start of the string and
after each character. -/
def strings.Replace (s old new : String) (n : Int) : String :=
  if old = new ∨ n = 0 then s
  else
    let m := if n < 0 then s.data.length + 1 else n.toNat
    if old.data = [] then ⟨new.data ++ strings.Replace.insert new.data (m - 1) s.data⟩
    else ⟨strings.Replace.apply old.data new.data m s.data⟩

/-- The method `func (err Error) SetParam(num int, val string) Error`. -/
def Error.SetParam (err : Error) (num : Int) (val : String) : Error :=
  let errR := err
  let param := "\x7b" ++ strconv.Itoa num ++ "\x7d"
  { errR with Cause := strings.Replace errR.Cause param val 1 }

/-! ## Copying mutators: `SetCause`, `AddMeta` -/

/-- The method `func (err Error) SetCause(cause string) Error`. -/
def Error.SetCause (err : Error) (cause : String) : Error :=
  let errNew := err
  { errNew with Cause := cause }

/-- The Go map assignment `m[key] = val` on the entries of a map object: the value of an
existing key is replaced, a new key gets a new entry. -/
def mapassign : List (String × String) → String → String → List (String × String)
  | [], key, val => [(key, val)]
  | (k, v) :: m, key, val =>
    if k = key then (key, val) :: m else (k, v) :: mapassign m key val

/-- The method `func (err Error) AddMeta(key string, val string) Error`.  The assignment
`errNew := err` copies the struct, so `errNew.Meta` refers to the same map object as
`err.Meta`; `make` allocates a new map object only when that reference is nil. -/
def Error.AddMeta (h : Heap) (err : Error) (key val : String) : Error × Heap :=
  let errNew := err
  match errNew.Meta with
  | none =>
    ({ errNew with Meta := some h.nextMap },
     { h with maps := Function.update h.maps h.nextMap (mapassign [] key val),
              nextMap := h.nextMap + 1 })
  | some m =>
    (errNew, { h with maps := Function.update h.maps m (mapassign (h.maps m) key val) })

/-- The entries of the map a `Meta` field refers to; the nil map has none. -/
def Heap.metaOf (h : Heap) (m : Option Addr) : List (String × String) :=
  match m with
  | none => []
  | some a => h.maps a

/-! ## Status projection: `Error()`

The packages `codes`, `status` and `errdetails` of gRPC are outside the repository.  The
model keeps what `Error()` hands to them: the code and message of a status and the list of
detail payloads attached to it. -/

/-- The code `codes.OK`, the zero value of `codes.Code`. -/
def codes.OK : Nat := 0

/-- The code `codes.Unknown`. -/
def codes.Unknown : Nat := 2

/-- The code `codes.InvalidArgument`. -/
def codes.InvalidArgument : Nat := 3

/-- The code `codes.NotFound`. -/
def codes.NotFound : Nat := 5

/-- The code `codes.PermissionDenied`. -/
def codes.PermissionDenied : Nat := 7

/-- A value of the interface type `proto.Message` as `Error()` builds it: the nil interface,
an `errdetails.DebugInfo` or an `errdetails.BadRequest` with its field violations (field and
description). -/
inductive Detail where
  | nil
  | DebugInfo (StackEntries : List String) (Detail : String)
  | BadRequest (FieldViolations : List (String × String))
deriving DecidableEq, Repr

/-- Modelled from the spec: a status of the status collaborator (`status.Status`, not part of
the repository): a code, a message and the detail payloads attached to it. -/
structure Status where
  code : Nat
  message : String
  details : List Detail
deriving DecidableEq, Repr

/-- Modelled from the spec: what the status collaborator (not part of the repository) decides
on its own: which detail payloads it can encode, and the text to which it renders the wire
error of a status. -/
structure Collaborator where
  encodes : Detail → Bool
  render : Status → String

/-- Modelled from the spec: `status.New(c, msg)` (not part of the repository) constructs a
status with a code and a message and no details. -/
def status.New (c : Nat) (msg : String) : Status :=
  { code := c, message := msg, details := [] }

/-- Modelled from the spec: `(*Status).WithDetails(details...)` (not part of the repository)
attaches the detail payloads to a copy of the status; it fails, returning a nil status and an
error, when the code is `OK` or when a detail cannot be encoded. -/
def Status.WithDetails (lib : Collaborator) (s : Status) (details : List Detail) :
    Option Status :=
  if s.code = codes.OK then none
  else if details.all lib.encodes then some { s with details := s.details ++ details }
  else none

/-- Modelled from the spec: `(*Status).Err()` (not part of the repository) on a status
pointer that may be nil: the wire error of the status, or the nil error when the pointer is
nil or the code is `OK`. -/
def Status.Err (s : Option Status) : Option Status :=
  match s with
  | none => none
  | some st => if st.code = codes.OK then none else some st

/-- The call `.Error()` on the error value `Err()` returned: the rendering of the status, or
a run-time panic when that error value is nil. -/
def errorString (lib : Collaborator) (e : Option Status) : Outcome String :=
  match e with
  | none => .panic "runtime error: invalid memory address or nil pointer dereference"
  | some st => .ret (lib.render st)

/-- The slice `errCodeList` of `Error()` after its loop over `parentErrors`:
`make([]string, 1)` is a slice holding one empty string, and the code of every parent is
appended to it (the pointers `GetParents` returns are never nil). -/
def Error.errCodeList (h : Heap) (parentErrors : List Addr) : List String :=
  let errCodeList : List String := [""]
  errCodeList ++ parentErrors.map (fun p => (h.errs p).Code)

/-- The value `debugInfo` that `Error()` builds, for at most `fuel` iterations of the loop of
`GetParents`. -/
def Error.debugInfo (fuel : Nat) (h : Heap) (err : Error) : Option Detail :=
  match err.GetParents fuel h with
  | none => none
  | some parentErrors => some (Detail.DebugInfo (Error.errCodeList h parentErrors) "")

/-- The values `br` that the loop over `err.Meta` in the `InvalidArgument` case of `Error()`
builds, one for each entry of the map: each is a new `BadRequest` holding one field
violation. -/
def Error.badRequests (h : Heap) (err : Error) : List Detail :=
  (h.metaOf err.Meta).map (fun fd => Detail.BadRequest [(fd.1, fd.2)])

/-- The status pointer on which `Error()` calls `.Err().Error()` in its return statement.
`make([]proto.Message, 1)` is a slice holding one nil message, to which `debugInfo` is
appended.  In the `InvalidArgument` case each `br` is local to one iteration of the loop and
is not used after it; the error `WithDetails` returns is dropped. -/
def Error.toStatus (lib : Collaborator) (fuel : Nat) (h : Heap) (err : Error) :
    Outcome (Option Status) :=
  let st := status.New err.Type_ err.Description
  match Error.debugInfo fuel h err with
  | none => .outOfFuel
  | some debugInfo =>
    let errDetList : List Detail := [Detail.nil]
    let errDetList := errDetList ++ [debugInfo]
    if err.Type_ = codes.Unknown then
      .ret (some (status.New codes.NotFound err.Description))
    else if err.Type_ = codes.InvalidArgument then
      let _brs := Error.badRequests h err
      let sb := Status.WithDetails lib st errDetList
      .ret sb
    else
      .ret (some (status.New err.Type_ (err.Description ++ " | " ++ err.Code)))

/-- The method `func (err Error) Error() string`. -/
def Error.Error (lib : Collaborator) (fuel : Nat) (h : Heap) (err : Error) :
    Outcome String :=
  match Error.toStatus lib fuel h err with
  | .ret s => errorString lib (Status.Err s)
  | .panic msg => .panic msg
  | .outOfFuel => .outOfFuel

/-! ## Wrapping a source error -/

/-- A value of the Go interface type `error` as `From` sees it, by its dynamic type: the nil
interface; a value of the struct type `Error`; a pointer of type `*Error`, which may be nil
(the method set of `*Error` has `Error()` too, and `ComesFrom`, `GetParents` and
`FormatError` hand out such pointers); or a value of any other type, given by what a call of
its `Error()` method does: it returns a message, panics, or does not return. -/
inductive GoError where
  | nil
  | cerror (e : Error)
  | pointer (p : Option Addr)
  | other (result : Outcome String)

/-- The interface call `err2.Error()`.  On the nil interface it panics; on a `*Error` it is
the method `Error()` of the node pointed to, and it panics when the pointer is nil. -/
def GoError.Error (lib : Collaborator) (fuel : Nat) (h : Heap) (err2 : GoError) :
    Outcome String :=
  match err2 with
  | .nil => .panic "runtime error: invalid memory address or nil pointer dereference"
  | .cerror e => e.Error lib fuel h
  | .pointer none => .panic "value method cerror.Error.Error called using nil *Error pointer"
  | .pointer (some p) => (h.errs p).Error lib fuel h
  | .other result => result

/-- The assignment `errNew.ComesFrom = &ptr` of `From`: the local variable `ptr`, whose
address is taken, is a new heap object. -/
def From.link (h : Heap) (errNew ptr : Error) : Error × Heap :=
  ({ errNew with ComesFrom := some h.nextErr },
   { h with errs := Function.update h.errs h.nextErr ptr, nextErr := h.nextErr + 1 })

/-- The method `func (err Error) From(err2 error) Error`.  The type switch has the case
`Error` only: every other source, a `*Error` included, takes the default branch, which calls
`err2.Error()`. -/
def Error.From (lib : Collaborator) (fuel : Nat) (h : Heap) (err : cerror.Error)
    (err2 : GoError) :
    Outcome (cerror.Error × Heap) :=
  let errNew := err
  match err2 with
  | .cerror e => .ret (From.link h errNew e)
  | _ =>
    match err2.Error lib fuel h with
    | .ret message =>
      .ret (From.link h errNew
        { Error.zero with Code := PrimitiveErrorTag, Description := message })
    | .panic msg => .panic msg
    | .outOfFuel => .outOfFuel

/-- The package-level function `func From(err2 error) Error`. -/
def From (lib : Collaborator) (fuel : Nat) (h : Heap) (err2 : GoError) :
    Outcome (Error × Heap) :=
  let err := Error.zero
  err.From lib fuel h err2

/-! ## The values of `cerror_test.go` -/

/-- The test value `errLevelX`. -/
def errLevelX : Error :=
  { Error.zero with
    Type_ := codes.InvalidArgument, Code := "OTHER_WEIRD_ERROR",
    Description := "Test weird error", Cause := "Test Cause", ComesFrom := none }

/-- The test value `errLevel0`; its map is the map object 0. -/
def errLevel0 : Error :=
  { Error.zero with
    Type_ := codes.InvalidArgument, Code := "EIA",
    Description := "The argument \x27password\x27 is invalid", Cause := "\x27{1}\x27 lower than {2}",
    ComesFrom := none, Meta := some 0 }

/-- The test value `errLevel1`, whose cause is `&errLevel0` (address 0). -/
def errLevel1 : Error :=
  { Error.zero with
    Type_ := codes.InvalidArgument, Code := "ECPw",
    Description := "The argument \x27password\x27 is invalid", Cause := "\x27password\x27 is invalid",
    ComesFrom := some 0, Meta := none }

/-- The test value `errLevel2`, whose cause is `&errLevel1` (address 1); its map is the map
object 1. -/
def errLevel2 : Error :=
  { Error.zero with
    Type_ := codes.PermissionDenied, Code := "LOGIN_ERR",
    Description := "The login process is invalid", Cause := "",
    ComesFrom := some 1, Meta := some 1 }

/-- The heap of the test file: `errLevel0`, `errLevel1`, `errLevel2` and `errLevelX` at the
addresses 0 to 3, and the two map literals. -/
def testHeap : Heap :=
  { errs := fun a =>
      if a = 0 then errLevel0 else if a = 1 then errLevel1
      else if a = 2 then errLevel2 else if a = 3 then errLevelX else Error.zero
    maps := fun m =>
      if m = 0 then [("arg", "\x27password"), ("req", "len > 6")]
      else if m = 1 then [("sample_meta", "test")] else []
    nextErr := 4
    nextMap := 2 }

/-- A heap with a self-referential node: the node at address 0 is its own cause. -/
def loopHeap : Heap :=
  { errs := fun _ => { Error.zero with Code := "LOOP", ComesFrom := some 0 }
    maps := fun _ => []
    nextErr := 1
    nextMap := 0 }

/-- A heap with a cycle of two nodes: the node at address 0 has the node at address 1 as its
cause, which has the node at address 0 as its cause.  The node at address 2 is a leaf with
another code. -/
def cycleHeap : Heap :=
  { errs := fun a =>
      if a = 0 then { Error.zero with Code := "A", ComesFrom := some 1 }
      else if a = 1 then { Error.zero with Code := "B", ComesFrom := some 0 }
      else if a = 2 then { Error.zero with Code := "T" }
      else Error.zero
    maps := fun _ => []
    nextErr := 3
    nextMap := 0 }

/-- A collaborator for examples: it encodes every payload but the nil message and renders a
status as its message. -/
def testLib : Collaborator :=
  { encodes := fun d => decide (d ≠ Detail.nil)
    render := fun s => s.message }

/-! ## Ancestry -/

/-- The first `k` nodes reached by following the cause link from the pointer `p`. -/
def ancestors (h : Heap) : Nat → Option Addr → List Addr
  | 0, _ => []
  | _ + 1, none => []
  | k + 1, some a => a :: ancestors h k (h.errs a).ComesFrom

/-- The chain under the pointer `p` is finite and `l` lists its nodes: following the cause
link from `p` visits the nodes of `l` in order and then reaches nil. -/
def Ancestry (h : Heap) : Option Addr → List Addr → Prop
  | p, [] => p = none
  | p, a :: l => p = some a ∧ Ancestry h (h.errs a).ComesFrom l

instance Ancestry.decidable (h : Heap) : (p : Option Addr) → (l : List Addr) →
    Decidable (Ancestry h p l)
  | p, [] => inferInstanceAs (Decidable (p = none))
  | p, a :: l =>
    have := Ancestry.decidable h (h.errs a).ComesFrom l
    inferInstanceAs (Decidable (p = some a ∧ Ancestry h (h.errs a).ComesFrom l))

/-! ## Lemmas on ancestry -/

theorem ancestors_length_le (h : Heap) (k : Nat) (p : Option Addr) :
    (ancestors h k p).length ≤ k := by
  induction k generalizing p with
  | zero => simp [ancestors]
  | succ k ih =>
    cases p with
    | none => simp [ancestors]
    | some a =>
      have := ih (h.errs a).ComesFrom
      simp only [ancestors, List.length_cons]
      omega

theorem ancestors_eq_of_Ancestry (h : Heap) (l : List Addr) :
    ∀ (k : Nat) (p : Option Addr), Ancestry h p l → l.length ≤ k → ancestors h k p = l := by
  induction l with
  | nil =>
    intro k p hp _
    simp only [Ancestry] at hp
    subst hp
    cases k <;> rfl
  | cons a l ih =>
    intro k p hp hk
    obtain ⟨rfl, hrest⟩ := hp
    cases k with
    | zero => simp at hk
    | succ k =>
      simp only [ancestors]
      rw [ih k _ hrest (by simpa using hk)]

theorem Ancestry_unique (h : Heap) (l : List Addr) :
    ∀ (p : Option Addr) (l2 : List Addr), Ancestry h p l → Ancestry h p l2 → l = l2 := by
  induction l with
  | nil =>
    intro p l2 hp hp2
    simp only [Ancestry] at hp
    subst hp
    cases l2 with
    | nil => rfl
    | cons b l2 => exact absurd hp2.1 (by simp)
  | cons a l ih =>
    intro p l2 hp hp2
    obtain ⟨rfl, hrest⟩ := hp
    cases l2 with
    | nil => exact absurd hp2 (by simp [Ancestry])
    | cons b l2 =>
      obtain ⟨hb, hrest2⟩ := hp2
      have hab : a = b := Option.some.inj hb
      subst hab
      rw [ih _ l2 hrest hrest2]

theorem Ancestry_suffix (h : Heap) (l1 : List Addr) :
    ∀ (p : Option Addr) (a : Addr) (l2 : List Addr),
      Ancestry h p (l1 ++ a :: l2) → Ancestry h (h.errs a).ComesFrom l2 := by
  induction l1 with
  | nil =>
    intro p a l2 hp
    exact hp.2
  | cons b l1 ih =>
    intro p a l2 hp
    exact ih _ a l2 hp.2

/-- A node that has a finite chain is not among its own ancestors. -/
theorem Ancestry_not_mem (h : Heap) (a : Addr) (l : List Addr)
    (hl : Ancestry h (h.errs a).ComesFrom l) : a ∉ l := by
  intro hmem
  obtain ⟨l1, l2, rfl⟩ := List.append_of_mem hmem
  have hs := Ancestry_suffix h l1 _ a l2 hl
  have heq := Ancestry_unique h _ _ _ hl hs
  have hlen := congrArg List.length heq
  simp at hlen
  omega

/-! ## Lemmas on the loops -/

theorem GetParents_loop_eq (h : Heap) :
    ∀ (fuel cont : Nat) (cur : Error) (acc : List Addr),
      maxDep + 1 ≤ fuel + cont → cont ≤ maxDep →
      GetParents.loop h fuel cont cur acc
        = some (acc ++ ancestors h (maxDep - cont) cur.ComesFrom) := by
  intro fuel
  induction fuel with
  | zero =>
    intro cont cur acc h1 h2
    omega
  | succ fuel ih =>
    intro cont cur acc h1 h2
    cases hc : cur.ComesFrom with
    | none =>
      simp only [GetParents.loop, hc]
      cases hk : maxDep - cont <;> simp [ancestors]
    | some p =>
      simp only [GetParents.loop, hc]
      by_cases hcap : cont + 1 > maxDep
      · have hz : maxDep - cont = 0 := by omega
        simp [hcap, hz, ancestors]
      · have hs : maxDep - cont = (maxDep - (cont + 1)) + 1 := by omega
        rw [if_neg hcap, ih (cont + 1) (h.errs p) (acc ++ [p]) (by omega) (by omega), hs]
        simp [ancestors]

theorem GetParents_eq_ancestors (h : Heap) (n : Error) (fuel : Nat)
    (hfuel : maxDep + 1 ≤ fuel) :
    n.GetParents fuel h = some (ancestors h maxDep n.ComesFrom) := by
  have := GetParents_loop_eq h fuel 0 n [] (by omega) (by omega)
  simpa [Error.GetParents] using this

theorem Is_loop_congr (h : Heap) (b b2 : Error) (hb : b2.Code = b.Code) :
    ∀ (fuel : Nat) (cur : Option Error), Is.loop h b2 fuel cur = Is.loop h b fuel cur := by
  intro fuel
  induction fuel with
  | zero => intro cur; rfl
  | succ fuel ih =>
    intro cur
    cases cur with
    | none => rfl
    | some c => simp only [Is.loop, hb, ih]

theorem Is_loop_hit (h : Heap) (b : Error) (l : List Addr) :
    ∀ (cur : Error) (fuel : Nat), Ancestry h cur.ComesFrom l →
      (∃ e ∈ cur :: l.map h.errs, e.Code = b.Code) → l.length + 1 ≤ fuel →
      Is.loop h b fuel (some cur) = some true := by
  induction l with
  | nil =>
    intro cur fuel _ hex hfuel
    obtain ⟨e, he, hcode⟩ := hex
    simp only [List.map_nil, List.mem_singleton] at he
    subst he
    obtain ⟨f, rfl⟩ : ∃ f, fuel = f + 1 := ⟨fuel - 1, by simp at hfuel; omega⟩
    simp [Is.loop, hcode]
  | cons a l ih =>
    intro cur fuel hchain hex hfuel
    obtain ⟨hc, hrest⟩ := hchain
    obtain ⟨f, rfl⟩ : ∃ f, fuel = f + 1 := ⟨fuel - 1, by simp at hfuel; omega⟩
    by_cases hcode : cur.Code = b.Code
    · simp [Is.loop, hcode]
    · have hex2 : ∃ e ∈ h.errs a :: l.map h.errs, e.Code = b.Code := by
        obtain ⟨e, he, hec⟩ := hex
        rcases List.mem_cons.1 he with rfl | he2
        · exact absurd hec hcode
        · exact ⟨e, by simpa using he2, hec⟩
      simp only [Is.loop, hcode, if_false, hc, Option.map_some']
      exact ih (h.errs a) f hrest hex2 (by simp at hfuel; omega)

theorem Is_loop_miss (h : Heap) (b : Error) (l : List Addr) :
    ∀ (cur : Error) (fuel : Nat), Ancestry h cur.ComesFrom l →
      (∀ e ∈ cur :: l.map h.errs, e.Code ≠ b.Code) → l.length + 2 ≤ fuel →
      Is.loop h b fuel (some cur) = some false := by
  induction l with
  | nil =>
    intro cur fuel hchain hall hfuel
    simp only [Ancestry] at hchain
    obtain ⟨f, rfl⟩ : ∃ f, fuel = f + 2 := ⟨fuel - 2, by simp at hfuel; omega⟩
    have hcode : cur.Code ≠ b.Code := hall cur (by simp)
    simp [Is.loop, hcode, hchain]
  | cons a l ih =>
    intro cur fuel hchain hall hfuel
    obtain ⟨hc, hrest⟩ := hchain
    obtain ⟨f, rfl⟩ : ∃ f, fuel = f + 1 := ⟨fuel - 1, by simp at hfuel; omega⟩
    have hcode : cur.Code ≠ b.Code := hall cur (by simp)
    simp only [Is.loop, hcode, if_false, hc, Option.map_some']
    refine ih (h.errs a) f hrest ?_ (by simp at hfuel; omega)
    intro e he
    exact hall e (List.mem_cons_of_mem _ (by simpa using he))

theorem As_loop_hit (h : Heap) (t : Addr) (m : Error) (post : List Error)
    (hm : m.Code = (h.errs t).Code) (pre : List Error) :
    ∀ (cur : Error) (l : List Addr) (fuel : Nat), Ancestry h cur.ComesFrom l →
      cur :: l.map h.errs = pre ++ m :: post →
      (∀ e ∈ pre, e.Code ≠ (h.errs t).Code) → pre.length + 1 ≤ fuel →
      As.loop h t fuel (some cur)
        = .ret (true, { h with errs := Function.update h.errs t m }) := by
  induction pre with
  | nil =>
    intro cur l fuel _ hsplit _ hfuel
    obtain ⟨f, rfl⟩ : ∃ f, fuel = f + 1 := ⟨fuel - 1, by simp at hfuel; omega⟩
    have hcur : cur = m := by
      simp only [List.nil_append, List.cons.injEq] at hsplit
      exact hsplit.1
    subst hcur
    simp [As.loop, hm]
  | cons e pre ih =>
    intro cur l fuel hchain hsplit hall hfuel
    obtain ⟨f, rfl⟩ : ∃ f, fuel = f + 1 := ⟨fuel - 1, by simp at hfuel; omega⟩
    simp only [List.cons_append, List.cons.injEq] at hsplit
    obtain ⟨hcur, htail⟩ := hsplit
    subst hcur
    have hcode : cur.Code ≠ (h.errs t).Code := hall cur (by simp)
    cases l with
    | nil => simp at htail
    | cons a l =>
      obtain ⟨hc, hrest⟩ := hchain
      simp only [As.loop, hcode, if_false, hc, Option.map_some']
      refine ih (h.errs a) l f hrest (by simpa using htail) ?_ (by simp at hfuel; omega)
      intro e2 he2
      exact hall e2 (List.mem_cons_of_mem _ he2)

theorem As_loop_miss (h : Heap) (t : Addr) (l : List Addr) :
    ∀ (cur : Error) (fuel : Nat), Ancestry h cur.ComesFrom l →
      (∀ e ∈ cur :: l.map h.errs, e.Code ≠ (h.errs t).Code) → l.length + 2 ≤ fuel →
      As.loop h t fuel (some cur) = .ret (false, h) := by
  induction l with
  | nil =>
    intro cur fuel hchain hall hfuel
    simp only [Ancestry] at hchain
    obtain ⟨f, rfl⟩ : ∃ f, fuel = f + 2 := ⟨fuel - 2, by simp at hfuel; omega⟩
    have hcode : cur.Code ≠ (h.errs t).Code := hall cur (by simp)
    simp [As.loop, hcode, hchain]
  | cons a l ih =>
    intro cur fuel hchain hall hfuel
    obtain ⟨hc, hrest⟩ := hchain
    obtain ⟨f, rfl⟩ : ∃ f, fuel = f + 1 := ⟨fuel - 1, by simp at hfuel; omega⟩
    have hcode : cur.Code ≠ (h.errs t).Code := hall cur (by simp)
    simp only [As.loop, hcode, if_false, hc, Option.map_some']
    refine ih (h.errs a) f hrest ?_ (by simp at hfuel; omega)
    intro e he
    exact hall e (List.mem_cons_of_mem _ (by simpa using he))

/-! ## Lemmas on the string functions -/

theorem Index_eq_of_leftmost (sub post : List Char) (pre : List Char) :
    ∀ s : List Char, s = pre ++ sub ++ post →
      (∀ i < pre.length, ¬ sub <+: s.drop i) → strings.Index s sub = some pre.length := by
  induction pre with
  | nil =>
    intro s hs _
    have hpre : sub <+: s := by
      rw [hs]
      simp
    cases s with
    | nil =>
      have : sub = [] := List.prefix_nil.1 hpre
      simp [strings.Index, this]
    | cons c s => simp [strings.Index, hpre]
  | cons c pre ih =>
    intro s hs hleft
    subst hs
    have h0 : ¬ sub <+: c :: (pre ++ sub ++ post) := by
      simpa using hleft 0 (by simp)
    have hrec := ih (pre ++ sub ++ post) rfl (by
      intro i hi
      have := hleft (i + 1) (by simpa using hi)
      simpa using this)
    simp only [List.cons_append, strings.Index, List.isPrefixOf_iff_prefix]
    rw [if_neg (by simpa using h0)]
    simp only [List.append_assoc] at hrec
    simp [hrec]

theorem Index_eq_none (sub : List Char) :
    ∀ s : List Char, ¬ sub <:+: s → strings.Index s sub = none := by
  intro s
  induction s with
  | nil =>
    intro hs
    have : sub ≠ [] := fun hn => hs (by simp [hn])
    simp [strings.Index, this]
  | cons c s ih =>
    intro hs
    have h0 : ¬ sub <+: c :: s := fun hp => hs hp.isInfix
    have h1 : ¬ sub <:+: s := fun hi => hs (List.infix_cons hi)
    simp [strings.Index, h0, ih h1]

theorem placeholder_data_ne_nil (x : String) : ("\x7b" ++ x ++ "\x7d").data ≠ [] := by
  simp [String.data_append]

theorem Replace_one (s old new : String) (hold : old.data ≠ []) (hne : old ≠ new) :
    strings.Replace s old new 1
      = match strings.Index s.data old.data with
        | none => s
        | some j => ⟨s.data.take j ++ new.data ++ s.data.drop (j + old.data.length)⟩ := by
  simp only [strings.Replace, hne, false_or, one_ne_zero, if_false, hold]
  simp only [show ¬ ((1 : Int) < 0) by decide, if_false, Int.toNat_one, strings.Replace.apply]
  cases strings.Index s.data old.data <;> rfl

/-! ## Lemmas on map assignment -/

theorem lookup_mapassign_self (m : List (String × String)) (key val : String) :
    List.lookup key (mapassign m key val) = some val := by
  induction m with
  | nil => simp [mapassign, List.lookup]
  | cons kv m ih =>
    obtain ⟨k, v⟩ := kv
    by_cases hk : k = key
    · simp [mapassign, hk, List.lookup]
    · have hb : (key == k) = false := by simpa using fun hkk => hk hkk.symm
      simp [mapassign, hk, List.lookup, hb, ih]

theorem lookup_mapassign_other (m : List (String × String)) (key val k2 : String)
    (hne : k2 ≠ key) :
    List.lookup k2 (mapassign m key val) = List.lookup k2 m := by
  have hb : (k2 == key) = false := by simpa using hne
  induction m with
  | nil => simp [mapassign, List.lookup, hb]
  | cons kv m ih =>
    obtain ⟨k, v⟩ := kv
    by_cases hk : k = key
    · subst hk
      simp [mapassign, List.lookup, hb]
    · cases hkk : (k2 == k) <;> simp [mapassign, hk, List.lookup, hkk, ih]

/-! ## Lemmas on the status projection and on cycles -/

theorem debugInfo_eq (h : Heap) (n : Error) (fuel : Nat) (hfuel : maxDep + 1 ≤ fuel) :
    n.debugInfo fuel h
      = some (Detail.DebugInfo
          (Error.errCodeList h (ancestors h maxDep n.ComesFrom)) "") := by
  simp [Error.debugInfo, GetParents_eq_ancestors h n fuel hfuel]

/-- For a classification other than `OK`, `Unknown` and `InvalidArgument`, `Error()` returns
the rendering of a status with that classification and the message `Description | Code`. -/
theorem Error_default_rendering (lib : Collaborator) (fuel : Nat) (h : Heap) (n : Error)
    (hfuel : maxDep + 1 ≤ fuel) (hok : n.Type_ ≠ codes.OK) (hun : n.Type_ ≠ codes.Unknown)
    (hia : n.Type_ ≠ codes.InvalidArgument) :
    n.Error lib fuel h
      = .ret (lib.render
          { code := n.Type_, message := n.Description ++ " | " ++ n.Code, details := [] }) := by
  simp [Error.Error, Error.toStatus, debugInfo_eq h n fuel hfuel, hun, hia, Status.Err,
    status.New, hok, errorString]

/-- For the classification `OK`, `Err()` returns the nil error and `Error()` panics. -/
theorem Error_panics_of_OK (lib : Collaborator) (fuel : Nat) (h : Heap) (n : Error)
    (hfuel : maxDep + 1 ≤ fuel) (hty : n.Type_ = codes.OK) :
    n.Error lib fuel h
      = .panic "runtime error: invalid memory address or nil pointer dereference" := by
  simp [Error.Error, Error.toStatus, debugInfo_eq h n fuel hfuel, hty, Status.Err,
    status.New, errorString, codes.OK, codes.Unknown, codes.InvalidArgument]

theorem Is_loop_cycle (b : Error) (hA : b.Code ≠ "A") (hB : b.Code ≠ "B") :
    ∀ fuel : Nat, Is.loop cycleHeap b fuel (some (cycleHeap.errs 0)) = none ∧
      Is.loop cycleHeap b fuel (some (cycleHeap.errs 1)) = none := by
  intro fuel
  induction fuel with
  | zero => exact ⟨rfl, rfl⟩
  | succ fuel ih =>
    have h0 : (cycleHeap.errs 0).Code = "A" := rfl
    have h1 : (cycleHeap.errs 1).Code = "B" := rfl
    have c0 : (cycleHeap.errs 0).ComesFrom = some 1 := rfl
    have c1 : (cycleHeap.errs 1).ComesFrom = some 0 := rfl
    refine ⟨?_, ?_⟩
    · simp only [Is.loop, h0, c0, Option.map_some', if_neg (Ne.symm hA)]
      exact ih.2
    · simp only [Is.loop, h1, c1, Option.map_some', if_neg (Ne.symm hB)]
      exact ih.1

theorem As_loop_cycle :
    ∀ fuel : Nat, As.loop cycleHeap 2 fuel (some (cycleHeap.errs 0)) = .outOfFuel ∧
      As.loop cycleHeap 2 fuel (some (cycleHeap.errs 1)) = .outOfFuel := by
  intro fuel
  induction fuel with
  | zero => exact ⟨rfl, rfl⟩
  | succ fuel ih =>
    have h0 : (cycleHeap.errs 0).Code = "A" := rfl
    have h1 : (cycleHeap.errs 1).Code = "B" := rfl
    have h2 : (cycleHeap.errs 2).Code = "T" := rfl
    have c0 : (cycleHeap.errs 0).ComesFrom = some 1 := rfl
    have c1 : (cycleHeap.errs 1).ComesFrom = some 0 := rfl
    refine ⟨?_, ?_⟩
    · simp only [As.loop, h0, h2, c0, Option.map_some',
        if_neg (show ¬ ("A" : String) = "T" by decide)]
      exact ih.2
    · simp only [As.loop, h1, h2, c1, Option.map_some',
        if_neg (show ¬ ("B" : String) = "T" by decide)]
      exact ih.1

theorem As_loop_no_panic (h : Heap) (t : Addr) (msg : String) :
    ∀ (fuel : Nat) (cur : Option Error), As.loop h t fuel cur ≠ .panic msg := by
  intro fuel
  induction fuel with
  | zero =>
    intro cur hc
    simp [As.loop] at hc
  | succ fuel ih =>
    intro cur
    cases cur with
    | none =>
      intro hc
      simp [As.loop] at hc
    | some c =>
      by_cases hcode : c.Code = (h.errs t).Code
      · intro hc
        simp [As.loop, hcode] at hc
      · simp only [As.loop, hcode, if_false]
        exact ih _

theorem Ancestry_congr (h h2 : Heap) (l : List Addr) :
    ∀ p : Option Addr, (∀ a ∈ l, h2.errs a = h.errs a) → Ancestry h p l → Ancestry h2 p l := by
  induction l with
  | nil =>
    intro p _ hp
    exact hp
  | cons a l ih =>
    intro p hagree hp
    refine ⟨hp.1, ?_⟩
    rw [hagree a (by simp)]
    exact ih _ (fun x hx => hagree x (List.mem_cons_of_mem _ hx)) hp.2

/-! ## Lemmas on decimal writing and on placeholders -/

theorem digitChar_ne (k : Nat) :
    Nat.digitChar k ≠ '\x7b' ∧ Nat.digitChar k ≠ '\x7d' ∧ Nat.digitChar k ≠ '-' := by
  rcases Nat.lt_or_ge k 16 with h | h
  · interval_cases k <;> decide
  · obtain ⟨j, rfl⟩ : ∃ j, k = j + 16 := ⟨k - 16, by omega⟩
    have hstar : Nat.digitChar (j + 16) = '*' := by simp [Nat.digitChar]
    rw [hstar]
    decide

theorem digitChar_val (k : Nat) (hk : k < 10) : (Nat.digitChar k).toNat - 48 = k := by
  interval_cases k <;> rfl

theorem toDigitsCore_mem (b : Nat) :
    ∀ (fuel n : Nat) (ds : List Char) (c : Char),
      c ∈ Nat.toDigitsCore b fuel n ds → c ∈ ds ∨ ∃ k, c = Nat.digitChar k := by
  intro fuel
  induction fuel with
  | zero =>
    intro n ds c hc
    exact Or.inl (by simpa [Nat.toDigitsCore] using hc)
  | succ fuel ih =>
    intro n ds c hc
    simp only [Nat.toDigitsCore] at hc
    split at hc
    · rcases List.mem_cons.1 hc with rfl | h
      · exact Or.inr ⟨_, rfl⟩
      · exact Or.inl h
    · rcases ih _ _ c hc with h | h
      · rcases List.mem_cons.1 h with rfl | h2
        · exact Or.inr ⟨_, rfl⟩
        · exact Or.inl h2
      · exact Or.inr h

theorem repr_mem (n : Nat) (c : Char) (hc : c ∈ (Nat.repr n).data) :
    ∃ k, c = Nat.digitChar k := by
  have : c ∈ Nat.toDigitsCore 10 (n + 1) n [] := by
    simpa [Nat.repr, Nat.toDigits, List.asString] using hc
  rcases toDigitsCore_mem 10 _ _ _ c this with h | h
  · simp at h
  · exact h

theorem toDigitsCore_decode :
    ∀ (fuel n : Nat) (ds : List Char), n < fuel →
      List.foldl (fun (acc : Nat) (c : Char) => acc * 10 + (c.toNat - 48)) 0
          (Nat.toDigitsCore 10 fuel n ds)
        = List.foldl (fun (acc : Nat) (c : Char) => acc * 10 + (c.toNat - 48)) n ds := by
  intro fuel
  induction fuel with
  | zero =>
    intro n ds hn
    omega
  | succ fuel ih =>
    intro n ds hn
    simp only [Nat.toDigitsCore]
    have hmod : n % 10 < 10 := Nat.mod_lt _ (by decide)
    split
    · next hz =>
      simp only [List.foldl_cons, digitChar_val _ hmod]
      congr 1
      omega
    · next hz =>
      rw [ih (n / 10) _ (by omega)]
      simp only [List.foldl_cons, digitChar_val _ hmod]
      congr 1
      omega

theorem repr_injective (n m : Nat) (h : Nat.repr n = Nat.repr m) : n = m := by
  have hd : Nat.toDigitsCore 10 (n + 1) n [] = Nat.toDigitsCore 10 (m + 1) m [] := by
    have := congrArg String.data h
    simpa [Nat.repr, Nat.toDigits, List.asString] using this
  have h1 := toDigitsCore_decode (n + 1) n [] (by omega)
  have h2 := toDigitsCore_decode (m + 1) m [] (by omega)
  rw [hd, h2] at h1
  simpa using h1.symm

theorem Itoa_mem (p : Int) (c : Char) (hc : c ∈ (strconv.Itoa p).data) :
    c ≠ '\x7b' ∧ c ≠ '\x7d' := by
  unfold strconv.Itoa at hc
  split at hc
  · rw [String.data_append] at hc
    rcases List.mem_append.1 hc with h | h
    · have hm : c = '-' := by simpa using h
      subst hm
      decide
    · obtain ⟨k, rfl⟩ := repr_mem _ c h
      exact ⟨(digitChar_ne k).1, (digitChar_ne k).2.1⟩
  · obtain ⟨k, rfl⟩ := repr_mem _ c hc
    exact ⟨(digitChar_ne k).1, (digitChar_ne k).2.1⟩

theorem Itoa_injective (p q : Int) (h : strconv.Itoa p = strconv.Itoa q) : p = q := by
  unfold strconv.Itoa at h
  have hdash : ∀ (a b : Nat), "-" ++ Nat.repr a ≠ Nat.repr b := by
    intro a b hab
    have hd := congrArg String.data hab
    rw [String.data_append] at hd
    have hmem : '-' ∈ (Nat.repr b).data := by
      rw [← hd]
      simp
    obtain ⟨k, hk⟩ := repr_mem _ _ hmem
    exact (digitChar_ne k).2.2 hk.symm
  by_cases hp : p < 0 <;> by_cases hq : q < 0
  · simp only [hp, hq, if_true] at h
    have hd := congrArg String.data h
    simp only [String.data_append, List.append_cancel_left_eq] at hd
    have := repr_injective _ _ (String.ext hd)
    omega
  · simp only [hp, hq, if_true, if_false] at h
    exact absurd h (hdash _ _)
  · simp only [hp, hq, if_true, if_false] at h
    exact absurd h.symm (hdash _ _)
  · simp only [hp, hq, if_false] at h
    have := repr_injective _ _ h
    omega

theorem placeholder_data (x : String) :
    ("\x7b" ++ x ++ "\x7d").data = '\x7b' :: (x.data ++ ['\x7d']) := by
  simp [String.data_append]

theorem Index_cons (c : Char) (s sub : List Char) :
    strings.Index (c :: s) sub
      = if sub <+: c :: s then some 0 else (strings.Index s sub).map (· + 1) := by
  simp [strings.Index]

theorem Index_cons_skip (c : Char) (s r : List Char) (hc : c ≠ '\x7b') :
    strings.Index (c :: s) ('\x7b' :: r)
      = (strings.Index s ('\x7b' :: r)).map (· + 1) := by
  have hb : ('\x7b' == c) = false := by simpa using fun hcc => hc hcc.symm
  simp [strings.Index, List.isPrefixOf, hb]

theorem Index_append_skip (r : List Char) (a : List Char) :
    ∀ s : List Char, '\x7b' ∉ a →
      strings.Index (a ++ s) ('\x7b' :: r)
        = (strings.Index s ('\x7b' :: r)).map (· + a.length) := by
  induction a with
  | nil =>
    intro s _
    simp
  | cons c a ih =>
    intro s ha
    have hc : c ≠ '\x7b' := fun hcc => ha (by simp [hcc])
    have ha2 : '\x7b' ∉ a := fun hm => ha (List.mem_cons_of_mem _ hm)
    rw [List.cons_append, Index_cons_skip c _ r hc, ih s ha2]
    cases strings.Index s ('\x7b' :: r) <;> simp [Nat.add_assoc]

theorem Index_self (pat post : List Char) : strings.Index (pat ++ post) pat = some 0 :=
  Index_eq_of_leftmost pat post [] (pat ++ post) (by simp) (by simp)

theorem closing_prefix_eq (x : List Char) :
    ∀ (y s : List Char), '\x7d' ∉ x → '\x7d' ∉ y →
      x ++ ['\x7d'] <+: y ++ '\x7d' :: s → x = y := by
  induction x with
  | nil =>
    intro y s _ hy hpre
    cases y with
    | nil => rfl
    | cons d y =>
      have hd : '\x7d' = d := by simpa using hpre
      exact absurd (by rw [hd]; exact List.mem_cons_self _ _) hy
  | cons c x ih =>
    intro y s hx hy hpre
    cases y with
    | nil =>
      have hcd : c = '\x7d' := (List.cons_prefix_cons.1 (by simpa using hpre)).1
      exact absurd (by simp [hcd]) hx
    | cons d y =>
      have hboth := List.cons_prefix_cons.1 (by simpa using hpre)
      have hxy := ih y s (fun hm => hx (List.mem_cons_of_mem _ hm))
        (fun hm => hy (List.mem_cons_of_mem _ hm)) hboth.2
      rw [hboth.1, hxy]

theorem Index_skip_other (x y s : List Char) (hxy : x ≠ y)
    (hx : '\x7d' ∉ x) (hy : '\x7d' ∉ y) (hyb : '\x7b' ∉ y) :
    strings.Index ('\x7b' :: (y ++ ['\x7d']) ++ s) ('\x7b' :: (x ++ ['\x7d']))
      = (strings.Index s ('\x7b' :: (x ++ ['\x7d']))).map
          (· + ('\x7b' :: (y ++ ['\x7d'])).length) := by
  have hnot : ¬ ('\x7b' :: (x ++ ['\x7d'])) <+: '\x7b' :: (y ++ ['\x7d'] ++ s) := by
    intro hpre
    have h2 := (List.cons_prefix_cons.1 hpre).2
    exact hxy (closing_prefix_eq x y s hx hy (by simpa using h2))
  have hskip : '\x7b' ∉ y ++ ['\x7d'] := by
    intro hm
    rcases List.mem_append.1 hm with h | h
    · exact hyb h
    · simp at h
  have hrest := Index_append_skip (x ++ ['\x7d']) (y ++ ['\x7d']) s hskip
  rw [List.cons_append, Index_cons, if_neg hnot, hrest]
  cases strings.Index s ('\x7b' :: (x ++ ['\x7d'])) <;> simp [Nat.add_assoc]

theorem Replace_at (s old new : String) (pre post : List Char) (hold : old.data ≠ [])
    (hs : s.data = pre ++ old.data ++ post)
    (hidx : strings.Index s.data old.data = some pre.length) :
    (strings.Replace s old new 1).data = pre ++ new.data ++ post := by
  by_cases hne : old = new
  · simp [strings.Replace, hne, hs]
  · rw [Replace_one s old new hold hne, hidx]
    simp only [hs, List.append_assoc, List.take_left', List.drop_append, List.drop_left']

theorem SetParam_Cause_data (n : Error) (p : Int) (v : String) (pre post : List Char)
    (hs : n.Cause.data = pre ++ ("\x7b" ++ strconv.Itoa p ++ "\x7d").data ++ post)
    (hidx : strings.Index n.Cause.data ("\x7b" ++ strconv.Itoa p ++ "\x7d").data
      = some pre.length) :
    (n.SetParam p v).Cause.data = pre ++ v.data ++ post := by
  simp only [Error.SetParam]
  exact Replace_at _ _ v pre post (placeholder_data_ne_nil _) hs hidx

theorem SetParam_at_idx (n : Error) (p : Int) (v : String) (pre post : List Char)
    (hs : n.Cause.data = pre ++ ('\x7b' :: ((strconv.Itoa p).data ++ ['\x7d']) ++ post))
    (hidx : strings.Index n.Cause.data ('\x7b' :: ((strconv.Itoa p).data ++ ['\x7d']))
      = some pre.length) :
    (n.SetParam p v).Cause.data = pre ++ (v.data ++ post) := by
  have h := SetParam_Cause_data n p v pre post
    (by rw [placeholder_data, hs, List.append_assoc])
    (by rw [placeholder_data]; exact hidx)
  rw [h, List.append_assoc]

/-! ## Lemmas on `From` -/

/-- For a source of the struct type `Error`, `From` links a new copy of it: the cause of the
result points to a new object equal to the source in every field, the other fields of the
result are those of the receiver, and no object that existed before the call is written. -/
theorem From_value_links_copy (lib : Collaborator) (fuel : Nat) (h : Heap) (e1 e2 : Error) :
    ∃ (r : Error) (h2 : Heap), e1.From lib fuel h (.cerror e2) = .ret (r, h2) ∧
      (∃ p, r.ComesFrom = some p ∧ h2.errs p = e2) ∧
      r = { e1 with ComesFrom := r.ComesFrom } ∧
      (∀ a, a < h.nextErr → h2.errs a = h.errs a) ∧
      (∀ a, a < h.nextErr → h.errs a = e1 → (h2.errs a).ComesFrom = e1.ComesFrom) ∧
      h2.maps = h.maps := by
  refine ⟨_, _, rfl, ⟨h.nextErr, rfl, by simp [From.link]⟩, rfl, ?_, ?_, rfl⟩
  · intro a ha
    simp [From.link, Function.update, Nat.ne_of_lt ha]
  · intro a ha he
    simp [From.link, Function.update, Nat.ne_of_lt ha, he]

/-- On the default branch, when `err2.Error()` returns a message, `From` links a new leaf
built from that message. -/
theorem From_default_eq (lib : Collaborator) (fuel : Nat) (h : Heap) (n : Error)
    (x : GoError) (msg : String) (hx : ∀ e, x ≠ .cerror e)
    (hmsg : x.Error lib fuel h = .ret msg) :
    n.From lib fuel h x
      = .ret (From.link h n
          { Error.zero with Code := PrimitiveErrorTag, Description := msg }) := by
  cases x with
  | nil => simp [GoError.Error] at hmsg
  | cerror e => exact absurd rfl (hx e)
  | pointer p => simp only [Error.From, hmsg]
  | other result => simp only [Error.From, hmsg]

/-- On the default branch, when `err2.Error()` panics, `From` panics with the same
message. -/
theorem From_default_panic (lib : Collaborator) (fuel : Nat) (h : Heap) (n : Error)
    (x : GoError) (msg : String) (hx : ∀ e, x ≠ .cerror e)
    (hmsg : x.Error lib fuel h = .panic msg) :
    n.From lib fuel h x = .panic msg := by
  cases x with
  | nil => simp only [Error.From, hmsg]
  | cerror e => exact absurd rfl (hx e)
  | pointer p => simp only [Error.From, hmsg]
  | other result => simp only [Error.From, hmsg]

/-! ## Chain traversal: `GetParents` -/

/-- C1: for a node whose ancestry `l` has at most 1000 nodes, `GetParents` returns exactly
`l`, nearest cause first and the leaf last, and no address holding the node itself is in the
result. -/
theorem GetParents_exact (h : Heap) (n : Error) (l : List Addr) (fuel : Nat)
    (hchain : Ancestry h n.ComesFrom l) (hd : l.length ≤ 1000)
    (hfuel : maxDep + 1 ≤ fuel) :
    n.GetParents fuel h = some l ∧ ∀ a, h.errs a = n → a ∉ l := by
  refine ⟨?_, ?_⟩
  · rw [GetParents_eq_ancestors h n fuel hfuel,
      ancestors_eq_of_Ancestry h l maxDep _ hchain hd]
  · intro a ha
    subst ha
    exact Ancestry_not_mem h a l hchain

/-- Witness of C1 on the chain of the test file, `errLevel2 -> errLevel1 -> errLevel0`:
the result is `[&errLevel1, &errLevel0]`. -/
theorem GetParents_exact_witness :
    errLevel2.GetParents 1001 testHeap = some [1, 0] ∧
      ∀ a, testHeap.errs a = errLevel2 → a ∉ [1, 0] :=
  GetParents_exact testHeap errLevel2 [1, 0] 1001 (by decide) (by decide) (by decide)

/-- C2: on every heap, looping chains included, `GetParents` returns within `maxDep + 1`
iterations; the result has at most `maxDep = 1000` entries, it is the first 1000 nodes
reached by following the cause link, and it is empty when the node has no cause. -/
theorem GetParents_bounded (h : Heap) (n : Error) (fuel : Nat)
    (hfuel : maxDep + 1 ≤ fuel) :
    ∃ l, n.GetParents fuel h = some l ∧ l.length ≤ 1000 ∧
      l = ancestors h 1000 n.ComesFrom ∧ (n.ComesFrom = none → l = []) := by
  refine ⟨ancestors h maxDep n.ComesFrom, GetParents_eq_ancestors h n fuel hfuel,
    ancestors_length_le h maxDep _, rfl, ?_⟩
  intro hn
  rw [hn]
  rfl

/-- Witness of C2 on a self-referential chain. -/
theorem GetParents_bounded_witness :
    ∃ l, (loopHeap.errs 0).GetParents 1001 loopHeap = some l ∧ l.length ≤ 1000 ∧
      l = ancestors loopHeap 1000 (loopHeap.errs 0).ComesFrom ∧
      ((loopHeap.errs 0).ComesFrom = none → l = []) :=
  GetParents_bounded loopHeap (loopHeap.errs 0) 1001 (by decide)

/-! ## Chain matching: `Is`, `As`, `Equals`, `IsError` -/

/-- C3: for a node `a` with a finite chain `l`, `a.Is(b)` returns, and it returns true if and
only if `a` itself or one of its ancestors has the code of `b`; a target with the same code
as `b`, whatever its other fields and its cause link, gives the same result. -/
theorem Is_iff_code_in_chain (h : Heap) (a b : Error) (l : List Addr) (fuel : Nat)
    (hchain : Ancestry h a.ComesFrom l) (hfuel : l.length + 2 ≤ fuel) :
    (∃ r, a.Is fuel h b = some r ∧
      (r = true ↔ ∃ e ∈ a :: l.map h.errs, e.Code = b.Code)) ∧
    ∀ b2 : Error, b2.Code = b.Code → a.Is fuel h b2 = a.Is fuel h b := by
  refine ⟨?_, fun b2 hb => Is_loop_congr h b b2 hb fuel (some a)⟩
  by_cases hex : ∃ e ∈ a :: l.map h.errs, e.Code = b.Code
  · exact ⟨true, Is_loop_hit h b l a fuel hchain hex (by omega), iff_of_true rfl hex⟩
  · refine ⟨false, Is_loop_miss h b l a fuel hchain ?_ hfuel,
      iff_of_false Bool.false_ne_true hex⟩
    intro e he hcode
    exact hex ⟨e, he, hcode⟩

/-- Witness of C3 on the chain of the test file: `errLevel2.Is(errLevel0)`. -/
theorem Is_iff_code_in_chain_witness :
    (∃ r, errLevel2.Is 4 testHeap errLevel0 = some r ∧
      (r = true ↔ ∃ e ∈ errLevel2 :: [1, 0].map testHeap.errs, e.Code = errLevel0.Code)) ∧
    ∀ b2 : Error, b2.Code = errLevel0.Code →
      errLevel2.Is 4 testHeap b2 = errLevel2.Is 4 testHeap errLevel0 :=
  Is_iff_code_in_chain testHeap errLevel2 errLevel0 [1, 0] 4 (by decide) (by decide)

/-- C4: for a node `n` with a finite chain `l` and a target pointer `t` that is not nil: if
`m` is the first node of the chain, walking outward from `n`, that has the code of `*t`, then
`n.As(t)` returns true and the heap after the call holds `m`, all fields, at `t` and is
otherwise as before; if no node of the chain has that code, `n.As(t)` returns false and the
heap is as before. -/
theorem As_first_match (h : Heap) (n : Error) (t : Addr) (l : List Addr) (fuel : Nat)
    (hchain : Ancestry h n.ComesFrom l) (hfuel : l.length + 2 ≤ fuel) :
    (∀ (pre : List Error) (m : Error) (post : List Error),
        n :: l.map h.errs = pre ++ m :: post →
        (∀ e ∈ pre, e.Code ≠ (h.errs t).Code) → m.Code = (h.errs t).Code →
        n.As fuel h (some t)
          = .ret (true, { h with errs := Function.update h.errs t m })) ∧
    ((∀ e ∈ n :: l.map h.errs, e.Code ≠ (h.errs t).Code) →
        n.As fuel h (some t) = .ret (false, h)) := by
  refine ⟨?_, fun hall => As_loop_miss h t l n fuel hchain hall hfuel⟩
  intro pre m post hsplit hall hm
  refine As_loop_hit h t m post hm pre n l fuel hchain hsplit hall ?_
  have hlen := congrArg List.length hsplit
  simp at hlen
  omega

/-- Witness of C4 on the chain of the test file, with `&errLevelX` as the target. -/
theorem As_first_match_witness :
    (∀ (pre : List Error) (m : Error) (post : List Error),
        errLevel2 :: [1, 0].map testHeap.errs = pre ++ m :: post →
        (∀ e ∈ pre, e.Code ≠ (testHeap.errs 3).Code) → m.Code = (testHeap.errs 3).Code →
        errLevel2.As 4 testHeap (some 3)
          = .ret (true, { testHeap with errs := Function.update testHeap.errs 3 m })) ∧
    ((∀ e ∈ errLevel2 :: [1, 0].map testHeap.errs, e.Code ≠ (testHeap.errs 3).Code) →
        errLevel2.As 4 testHeap (some 3) = .ret (false, testHeap)) :=
  As_first_match testHeap errLevel2 3 [1, 0] 4 (by decide) (by decide)

/-- C5: `a.Equals(b)` is true if and only if the codes of `a` and `b` are equal; no other
field is read, so nodes that share a code are equal whatever their other fields are. -/
theorem Equals_iff_code (a b : Error) :
    (a.Equals b = true ↔ a.Code = b.Code) ∧
    (∀ a2 b2 : Error, a2.Code = a.Code → b2.Code = b.Code → a2.Equals b2 = a.Equals b) := by
  refine ⟨by simp [Error.Equals], ?_⟩
  intro a2 b2 ha hb
  simp [Error.Equals, ha, hb]

/-- C6: `n.IsError()` is true if and only if the code of `n` is not the empty string or `n`
has a cause; `Nil` and the zero value are not errors, and a node with an empty code and a
cause is one. -/
theorem IsError_iff (n : Error) :
    (n.IsError = true ↔ n.Code ≠ "" ∨ n.ComesFrom ≠ none) ∧
    Nil.IsError = false ∧ Error.zero.IsError = false ∧
    (∀ p : Addr, ({ n with Code := "", ComesFrom := some p } : Error).IsError = true) := by
  refine ⟨?_, by decide, by decide, ?_⟩
  · cases hc : n.ComesFrom <;> simp [Error.IsError, Nil, Error.zero, hc]
  · intro p
    simp [Error.IsError]

/-! ## Parameter substitution: `SetParam` -/

/-- C7: when the cause template of `n` is `pre ++ "{p}" ++ post` and `"{p}"` does not occur at
any position before the end of `pre` (the occurrence is the leftmost one), `n.SetParam(p, v)`
has the cause template `pre ++ v ++ post`, so every later occurrence stays in place, and all
its other fields are those of `n`.  On the template of the test file, filling position 1 with
"password" and then position 2 with "6" gives "\x27password\x27 lower than 6". -/
theorem SetParam_replaces_leftmost (n : Error) (p : Int) (v : String) (pre post : List Char)
    (hocc : n.Cause.data = pre ++ ("\x7b" ++ strconv.Itoa p ++ "\x7d").data ++ post)
    (hleft : ∀ i < pre.length,
      ¬ ("\x7b" ++ strconv.Itoa p ++ "\x7d").data <+: n.Cause.data.drop i) :
    n.SetParam p v = { n with Cause := ⟨pre ++ v.data ++ post⟩ } ∧
    ((errLevel0.SetParam 1 "password").SetParam 2 "6").Cause
      = "\x27password\x27 lower than 6" := by
  refine ⟨?_, by decide⟩
  by_cases hne : "\x7b" ++ strconv.Itoa p ++ "\x7d" = v
  · have hs : n.Cause = ⟨pre ++ v.data ++ post⟩ := by
      rw [← hne, ← hocc]
    simp only [Error.SetParam, strings.Replace, hne, true_or, if_true]
    rw [← hs]
  · have hidx := Index_eq_of_leftmost _ post pre n.Cause.data hocc hleft
    simp only [Error.SetParam]
    rw [Replace_one _ _ _ (placeholder_data_ne_nil _) hne, hidx]
    simp only [hocc, List.append_assoc, List.take_left', List.drop_append, List.drop_left']

/-- Witness of C7 on a template with two occurrences of the placeholder: only the first one
is replaced. -/
theorem SetParam_replaces_leftmost_witness :
    ({ errLevel0 with Cause := "a{1}b{1}c" } : Error).SetParam 1 "X"
      = { ({ errLevel0 with Cause := "a{1}b{1}c" } : Error) with
          Cause := ⟨"a".data ++ "X".data ++ "b{1}c".data⟩ } ∧
    ((errLevel0.SetParam 1 "password").SetParam 2 "6").Cause
      = "\x27password\x27 lower than 6" :=
  SetParam_replaces_leftmost { errLevel0 with Cause := "a{1}b{1}c" } 1 "X"
    "a".data "b{1}c".data (by decide) (by decide)

/-- C8: when the cause template of `n` does not contain `"{p}"`, for any integer `p`, zero
and negative ones included, `n.SetParam(p, v)` equals `n` in every field; position 7 leaves
the template of the test file as it is. -/
theorem SetParam_absent (n : Error) (p : Int) (v : String)
    (habs : ¬ ("\x7b" ++ strconv.Itoa p ++ "\x7d").data <:+: n.Cause.data) :
    n.SetParam p v = n ∧ (errLevel0.SetParam 7 "password").Cause = errLevel0.Cause := by
  refine ⟨?_, by decide⟩
  by_cases hne : "\x7b" ++ strconv.Itoa p ++ "\x7d" = v
  · simp [Error.SetParam, strings.Replace, hne]
  · simp only [Error.SetParam]
    rw [Replace_one _ _ _ (placeholder_data_ne_nil _) hne, Index_eq_none _ _ habs]

/-- Witness of C8 at a negative position. -/
theorem SetParam_absent_witness :
    errLevel0.SetParam (-1) "password" = errLevel0 ∧
      (errLevel0.SetParam 7 "password").Cause = errLevel0.Cause :=
  SetParam_absent errLevel0 (-1) "password" (by decide)

/-! ## Wrapping a source error: `From` -/

/-- C9, at sources that are nodes handed over as `*Error`: `errLevel1.From(&errLevel2)`
returns a node whose cause is not a copy of `errLevel2` but a leaf with the code
`PrimitiveErrorTag`, no cause, and the rendering of `errLevel2` as its description;
`errLevel1.From` of a nil `*Error` panics; and with `m = From(x)` for a foreign error `x`,
`errLevel1.From(m.ComesFrom)` panics, because the leaf `m.ComesFrom` points to has the
classification `OK`. -/
theorem From_flattens_pointer_source (lib : Collaborator) :
    testHeap.errs 2 = errLevel2 ∧
    (∃ (r : Error) (h2 : Heap),
      errLevel1.From lib 1001 testHeap (.pointer (some 2)) = .ret (r, h2) ∧
      ∃ p, r.ComesFrom = some p ∧
        h2.errs p
          = { Error.zero with
              Code := PrimitiveErrorTag,
              Description := lib.render
                { code := codes.PermissionDenied,
                  message := "The login process is invalid | LOGIN_ERR", details := [] } } ∧
        h2.errs p ≠ errLevel2) ∧
    errLevel1.From lib 1001 testHeap (.pointer none)
      = .panic "value method cerror.Error.Error called using nil *Error pointer" ∧
    (∃ (m : Error) (h2 : Heap), From lib 1001 testHeap (.other (.ret "boom")) = .ret (m, h2) ∧
      errLevel1.From lib 1001 h2 (.pointer m.ComesFrom)
        = .panic "runtime error: invalid memory address or nil pointer dereference") := by
  refine ⟨rfl, ?_, rfl, ⟨_, _, rfl, ?_⟩⟩
  · have hE : (GoError.pointer (some 2)).Error lib 1001 testHeap
        = .ret (lib.render
            { code := codes.PermissionDenied,
              message := "The login process is invalid | LOGIN_ERR", details := [] }) :=
      Error_default_rendering lib 1001 testHeap (testHeap.errs 2) (by decide) (by decide)
        (by decide) (by decide)
    rw [From_default_eq lib 1001 testHeap errLevel1 _ _ (by intro e he; cases he) hE]
    refine ⟨_, _, rfl, testHeap.nextErr, rfl, by simp [From.link], ?_⟩
    intro heq
    have hcode := congrArg Error.Code heq
    simp [From.link, PrimitiveErrorTag, errLevel2] at hcode
  · have hpanic : ∀ (h2 : Heap) (a : Addr), (h2.errs a).Type_ = codes.OK →
        (GoError.pointer (some a)).Error lib 1001 h2
          = .panic "runtime error: invalid memory address or nil pointer dereference" :=
      fun h2 a hty => Error_panics_of_OK lib 1001 h2 (h2.errs a) (by decide) hty
    refine From_default_panic lib 1001 _ errLevel1 _ _ (by intro e he; cases he) ?_
    exact hpanic _ testHeap.nextErr rfl

/-- C10 fails as stated: a source that is not an `Error` value and whose `Error()` method
panics, such as a nil pointer of a foreign error type, makes `From` panic, so there is no
result and no leaf; the same happens with a nil `*Error`, which takes the default branch
too. -/
theorem From_panics_with_source :
    errLevel1.From testLib 1001 testHeap
        (.other (.panic "runtime error: invalid memory address or nil pointer dereference"))
      = .panic "runtime error: invalid memory address or nil pointer dereference" ∧
    From testLib 1001 testHeap
        (.other (.panic "runtime error: invalid memory address or nil pointer dereference"))
      = .panic "runtime error: invalid memory address or nil pointer dereference" ∧
    errLevel1.From testLib 1001 testHeap (.pointer none)
      = .panic "value method cerror.Error.Error called using nil *Error pointer" :=
  ⟨rfl, rfl, rfl⟩

/-- C10, amended: for every node `n` and every source `x` that takes the default branch of
`From` (it is not a value of the struct type `Error`) and whose `Error()` method returns the
message `msg`, the cause of `n.From(x)` is a new leaf whose code is `PrimitiveErrorTag`,
whose description is `msg`, whose cause is absent and whose other fields are zero or empty,
and the other fields of the result are those of `n`; the same holds for the package-level
`From(x)`, whose result has an empty code. -/
theorem From_default_leaf (lib : Collaborator) (fuel : Nat) (h : Heap) (n : Error)
    (x : GoError) (msg : String) (hx : ∀ e, x ≠ .cerror e)
    (hmsg : x.Error lib fuel h = .ret msg) :
    (∃ (r : Error) (h2 : Heap), n.From lib fuel h x = .ret (r, h2) ∧
      r = { n with ComesFrom := r.ComesFrom } ∧
      ∃ p, r.ComesFrom = some p ∧
        h2.errs p = { Description := msg, Type_ := 0, Code := PrimitiveErrorTag, Cause := "",
                      IsSensible := false, Severity := "", Meta := none, ComesFrom := none,
                      Frame := Frame.zero }) ∧
    (∃ (r : Error) (h2 : Heap), From lib fuel h x = .ret (r, h2) ∧ r.Code = "" ∧
      ∃ p, r.ComesFrom = some p ∧
        h2.errs p = { Description := msg, Type_ := 0, Code := PrimitiveErrorTag, Cause := "",
                      IsSensible := false, Severity := "", Meta := none, ComesFrom := none,
                      Frame := Frame.zero }) ∧
    PrimitiveErrorTag = "PRIMITIVE_ERROR" := by
  have hn := From_default_eq lib fuel h n x msg hx hmsg
  have hz := From_default_eq lib fuel h Error.zero x msg hx hmsg
  refine ⟨⟨_, _, hn, rfl, h.nextErr, rfl, ?_⟩, ⟨_, _, hz, rfl, h.nextErr, rfl, ?_⟩, rfl⟩ <;>
    simp [From.link, Error.zero]

/-- Witness of the amended C10 at two sources: a foreign error with the message "boom", and
the pointer `&errLevel2`, whose `Error()` returns its rendering. -/
theorem From_default_leaf_witness :
    ((∃ (r : Error) (h2 : Heap),
        errLevel1.From testLib 1001 testHeap (.other (.ret "boom")) = .ret (r, h2) ∧
        r = { errLevel1 with ComesFrom := r.ComesFrom } ∧
        ∃ p, r.ComesFrom = some p ∧
          h2.errs p = { Description := "boom", Type_ := 0, Code := PrimitiveErrorTag,
                        Cause := "", IsSensible := false, Severity := "", Meta := none,
                        ComesFrom := none, Frame := Frame.zero }) ∧
      (∃ (r : Error) (h2 : Heap),
        From testLib 1001 testHeap (.other (.ret "boom")) = .ret (r, h2) ∧ r.Code = "" ∧
        ∃ p, r.ComesFrom = some p ∧
          h2.errs p = { Description := "boom", Type_ := 0, Code := PrimitiveErrorTag,
                        Cause := "", IsSensible := false, Severity := "", Meta := none,
                        ComesFrom := none, Frame := Frame.zero }) ∧
      PrimitiveErrorTag = "PRIMITIVE_ERROR") ∧
    (∃ (r : Error) (h2 : Heap),
      errLevel1.From testLib 1001 testHeap (.pointer (some 2)) = .ret (r, h2) ∧
      r = { errLevel1 with ComesFrom := r.ComesFrom } ∧
      ∃ p, r.ComesFrom = some p ∧
        h2.errs p = { Description := "The login process is invalid | LOGIN_ERR", Type_ := 0,
                      Code := PrimitiveErrorTag, Cause := "", IsSensible := false,
                      Severity := "", Meta := none, ComesFrom := none,
                      Frame := Frame.zero }) :=
  ⟨From_default_leaf testLib 1001 testHeap errLevel1 (.other (.ret "boom")) "boom"
      (by intro e he; cases he) rfl,
    (From_default_leaf testLib 1001 testHeap errLevel1 (.pointer (some 2))
      "The login process is invalid | LOGIN_ERR" (by intro e he; cases he) rfl).1⟩

/-! ## Copying mutators: `AddMeta` -/

/-- C11, at the node `errLevel0` of the test file, whose map is the map object 0: after
`errLevel0.AddMeta("k", "v")` the map object that `errLevel0` itself holds has the entry
`k`, which it did not have before the call, and after `errLevel0.AddMeta("arg", "x")` its
entry for `arg` is overwritten; the struct fields of the receiver are not written. -/
theorem AddMeta_writes_shared_map :
    errLevel0.Meta = some 0 ∧
    List.lookup "k" (testHeap.metaOf errLevel0.Meta) = none ∧
    List.lookup "k" ((errLevel0.AddMeta testHeap "k" "v").2.metaOf errLevel0.Meta)
      = some "v" ∧
    List.lookup "arg" (testHeap.metaOf errLevel0.Meta) = some "\x27password" ∧
    List.lookup "arg" ((errLevel0.AddMeta testHeap "arg" "x").2.metaOf errLevel0.Meta)
      = some "x" ∧
    (errLevel0.AddMeta testHeap "k" "v").2.errs 0 = testHeap.errs 0 := by
  decide

/-- C12: for every node `n`, key `k` and value `v`, the metadata of `n.AddMeta(k, v)` maps `k`
to `v` and every other key to what the metadata of `n` mapped it to before the call (to
nothing when `n` had no entry for it or no map); every field of the result other than the
metadata equals that of `n`, no `Error` object is written, and when `n` has no map the map of
the result is a new one with the single entry `k: v`. -/
theorem AddMeta_sets_key (h : Heap) (n : Error) (k v : String) :
    List.lookup k ((n.AddMeta h k v).2.metaOf (n.AddMeta h k v).1.Meta) = some v ∧
    (∀ k2, k2 ≠ k →
      List.lookup k2 ((n.AddMeta h k v).2.metaOf (n.AddMeta h k v).1.Meta)
        = List.lookup k2 (h.metaOf n.Meta)) ∧
    (n.AddMeta h k v).1 = { n with Meta := (n.AddMeta h k v).1.Meta } ∧
    (n.AddMeta h k v).2.errs = h.errs ∧
    (n.Meta = none →
      (n.AddMeta h k v).1.Meta = some h.nextMap ∧
      (n.AddMeta h k v).2.metaOf (n.AddMeta h k v).1.Meta = [(k, v)]) := by
  cases hm : n.Meta with
  | none =>
    refine ⟨?_, ?_, ?_, ?_, ?_⟩
    · simp [Error.AddMeta, hm, Heap.metaOf, lookup_mapassign_self]
    · intro k2 hk2
      simp [Error.AddMeta, hm, Heap.metaOf, lookup_mapassign_other _ _ _ _ hk2]
    · simp [Error.AddMeta, hm]
    · simp [Error.AddMeta, hm]
    · intro _
      simp [Error.AddMeta, hm, Heap.metaOf, mapassign]
  | some m =>
    refine ⟨?_, ?_, ?_, ?_, ?_⟩
    · simp [Error.AddMeta, hm, Heap.metaOf, lookup_mapassign_self]
    · intro k2 hk2
      simp [Error.AddMeta, hm, Heap.metaOf, lookup_mapassign_other _ _ _ _ hk2]
    · cases n
      simp_all [Error.AddMeta]
    · simp [Error.AddMeta, hm]
    · intro hcontra
      exact absurd hcontra (by simp)

/-! ## Status projection: `Error()` -/

/-- C13: for every node `n` whose classification is `Unknown`, `n.Error()` returns the
rendering of a status whose code is `NotFound`, whose message is the description of `n`
alone and which has no details, whatever the code, metadata and ancestry of `n` are. -/
theorem Error_unknown_is_not_found (lib : Collaborator) (fuel : Nat) (h : Heap) (n : Error)
    (hfuel : maxDep + 1 ≤ fuel) (hty : n.Type_ = codes.Unknown) :
    n.Error lib fuel h
      = .ret (lib.render
          { code := codes.NotFound, message := n.Description, details := [] }) := by
  simp [Error.Error, Error.toStatus, debugInfo_eq h n fuel hfuel, hty, Status.Err,
    status.New, errorString, codes.NotFound, codes.OK]

/-- Witness of C13 on `errLevel2` with its classification set to `Unknown`. -/
theorem Error_unknown_is_not_found_witness :
    ({ errLevel2 with Type_ := codes.Unknown } : Error).Error testLib 1001 testHeap
      = .ret (testLib.render
          { code := codes.NotFound,
            message := ({ errLevel2 with Type_ := codes.Unknown } : Error).Description,
            details := [] }) :=
  Error_unknown_is_not_found testLib 1001 testHeap { errLevel2 with Type_ := codes.Unknown }
    (by decide) rfl

/-- C14, at the zero-value classification: the leaf that `From` builds for a source error
with message `msg` has the classification `OK`, the zero value; for it `Err()` returns the
nil error and the call of `Error()` on that error panics, so `Error()` returns no
rendering. -/
theorem Error_panics_on_zero_classification (lib : Collaborator) (msg : String) :
    ({ Error.zero with Code := PrimitiveErrorTag, Description := msg } : Error).Type_
      = codes.OK ∧
    ({ Error.zero with Code := PrimitiveErrorTag, Description := msg } : Error).Error
        lib 1001 testHeap
      = .panic "runtime error: invalid memory address or nil pointer dereference" := by
  exact ⟨rfl, Error_panics_of_OK lib 1001 testHeap _ (by decide) rfl⟩

/-- C15, at the node `errLevel0` of the test file (classification `InvalidArgument`, metadata
with the keys `arg` and `req`): the loop builds one `BadRequest` for each metadata pair, and
the status that is rendered is either nil or has the nil message and the `DebugInfo` as its
only details, whatever the collaborator encodes: no field violation is attached to it. -/
theorem Error_drops_field_violations (lib : Collaborator) :
    errLevel0.badRequests testHeap
      = [Detail.BadRequest [("arg", "\x27password")], Detail.BadRequest [("req", "len > 6")]] ∧
    (errLevel0.toStatus lib 1001 testHeap = .ret none ∨
      errLevel0.toStatus lib 1001 testHeap
        = .ret (some { code := codes.InvalidArgument,
                       message := "The argument \x27password\x27 is invalid",
                       details := [Detail.nil, Detail.DebugInfo [""] ""] })) := by
  refine ⟨by decide, ?_⟩
  have hd : errLevel0.debugInfo 1001 testHeap = some (Detail.DebugInfo [""] "") := by decide
  by_cases henc : ([Detail.nil, Detail.DebugInfo [""] ""].all lib.encodes) = true
  · right
    simp only [Error.toStatus, hd]
    simp [errLevel0, Error.zero, codes.Unknown, codes.InvalidArgument, Status.WithDetails,
      status.New, codes.OK]
    simpa using henc
  · left
    simp only [Error.toStatus, hd]
    simp [errLevel0, Error.zero, codes.Unknown, codes.InvalidArgument, Status.WithDetails,
      status.New, codes.OK]
    simpa using henc

/-- C16, at the nodes `errLevel2` and `errLevel0` of the test file: `GetParents` returns two
ancestors for `errLevel2`, with the codes `ECPw` and `EIA`, and the stack entries of the
`DebugInfo` are an empty string followed by these two codes; for the leaf `errLevel0`, which
has no ancestor, the stack entries are one empty string. -/
theorem debugInfo_has_leading_empty_entry :
    errLevel2.GetParents 1001 testHeap = some [1, 0] ∧
    [1, 0].map (fun p => (testHeap.errs p).Code) = ["ECPw", "EIA"] ∧
    errLevel2.debugInfo 1001 testHeap = some (Detail.DebugInfo ["", "ECPw", "EIA"] "") ∧
    errLevel0.GetParents 1001 testHeap = some [] ∧
    errLevel0.debugInfo 1001 testHeap = some (Detail.DebugInfo [""] "") := by
  decide

/-! ## Termination and panics of `Is` and `As` -/

/-- C17, on a chain with a cycle (`cycleHeap`: the nodes with the codes `A` and `B` are each
the cause of the other) and a target with the code `T`, which no node of the chain has:
whatever the number of iterations allowed, `Is` and `As` have not returned. -/
theorem Is_As_diverge_on_cycle (fuel : Nat) :
    (cycleHeap.errs 0).Is fuel cycleHeap (cycleHeap.errs 2) = none ∧
    (cycleHeap.errs 0).As fuel cycleHeap (some 2) = .outOfFuel :=
  ⟨(Is_loop_cycle (cycleHeap.errs 2) (by decide) (by decide) fuel).1, (As_loop_cycle fuel).1⟩

/-- C18: for every node `n`, `n.As(nil)` panics with the message "errors: target cannot be
nil", whatever the code and the chain of `n` are and before any iteration of the loop; with a
target that is not nil `As` does not panic. -/
theorem As_nil_panics (fuel : Nat) (h : Heap) (n : Error) :
    n.As fuel h none = .panic "errors: target cannot be nil" ∧
    (∀ (b : Bool) (h2 : Heap), n.As fuel h none ≠ .ret (b, h2)) ∧
    (∀ (t : Addr) (msg : String), n.As fuel h (some t) ≠ .panic msg) := by
  refine ⟨rfl, ?_, ?_⟩
  · intro b h2 hc
    simp [Error.As] at hc
  · intro t msg
    exact As_loop_no_panic h t msg fuel (some n)

/-! ## `From` replaces the cause link -/

/-- C20 fails as stated: `errLevel1` has the cause `errLevel0` (address 0), and `errLevel2`
has `errLevel1` and `errLevel0` as its ancestors; `GetParents(errLevel1.From(errLevel2))` is
the copy of `errLevel2` followed by the addresses 1 and 0, so the previous cause of
`errLevel1` is reachable from the result, and `Is(errLevel0)` is true before and after. -/
theorem From_keeps_shared_ancestry :
    errLevel1.ComesFrom = some 0 ∧
    errLevel2.GetParents 1001 testHeap = some [1, 0] ∧
    errLevel1.Is 5 testHeap errLevel0 = some true ∧
    (∃ (r : Error) (h2 : Heap),
      errLevel1.From testLib 1001 testHeap (.cerror errLevel2) = .ret (r, h2) ∧
      r.GetParents 1001 h2 = some [4, 1, 0] ∧ 0 ∈ [4, 1, 0] ∧
      r.Is 5 h2 errLevel0 = some true) := by
  refine ⟨rfl, by decide, by decide, ⟨_, _, rfl, by decide, by decide, by decide⟩⟩

/-- C20, amended: for every node `n` and every source that is an `Error` value `e` whose
ancestry `l` is finite, has fewer than 1000 nodes and consists of allocated objects,
`GetParents(n.From(e))` is the pointer to the new copy of `e` followed by `GetParents(e)`,
whatever cause `n` had: an object that existed before the call, the previous cause of `n`
and its ancestors included, is in the result if and only if it is an ancestor of `e`.  On
the test file, `errLevel1.Is(errLevel0)` is true through the cause of `errLevel1`, and
`errLevel1.From(errLevelX).Is(errLevel0)` is false. -/
theorem From_replaces_cause (lib : Collaborator) (h : Heap) (n e : Error) (l : List Addr)
    (fuel : Nat) (hchain : Ancestry h e.ComesFrom l) (hlen : l.length < 1000)
    (halloc : ∀ a ∈ l, a < h.nextErr) (hfuel : maxDep + 1 ≤ fuel) :
    (∃ (r : Error) (h2 : Heap), n.From lib fuel h (.cerror e) = .ret (r, h2) ∧
      h2.errs h.nextErr = e ∧
      e.GetParents fuel h = some l ∧ e.GetParents fuel h2 = some l ∧
      r.GetParents fuel h2 = some (h.nextErr :: l) ∧
      (∀ a, a < h.nextErr → (a ∈ h.nextErr :: l ↔ a ∈ l)) ∧
      (∀ c, n.ComesFrom = some c → c < h.nextErr → c ∉ l → c ∉ h.nextErr :: l)) ∧
    errLevel1.Is 3 testHeap errLevel0 = some true ∧
    (∃ (r : Error) (h2 : Heap),
      errLevel1.From lib 1001 testHeap (.cerror errLevelX) = .ret (r, h2) ∧
      r.Is 3 h2 errLevel0 = some false) := by
  have hchain2 : Ancestry (From.link h n e).2 e.ComesFrom l := by
    refine Ancestry_congr h _ l _ ?_ hchain
    intro a ha
    simp [From.link, Function.update, Nat.ne_of_lt (halloc a ha)]
  have hmem : ∀ a, a < h.nextErr → (a ∈ h.nextErr :: l ↔ a ∈ l) := by
    intro a ha
    simp [Nat.ne_of_lt ha]
  refine ⟨⟨_, _, rfl, by simp [From.link], ?_, ?_, ?_, hmem, ?_⟩, by decide,
    ⟨_, _, rfl, by decide⟩⟩
  · rw [GetParents_eq_ancestors h e fuel hfuel,
      ancestors_eq_of_Ancestry h l maxDep _ hchain (by simp [maxDep]; omega)]
  · rw [GetParents_eq_ancestors _ e fuel hfuel]
    exact congrArg some
      (ancestors_eq_of_Ancestry _ l maxDep _ hchain2 (by simp [maxDep]; omega))
  · rw [GetParents_eq_ancestors _ _ fuel hfuel]
    have hmax : maxDep = 999 + 1 := rfl
    rw [hmax]
    simp only [From.link, ancestors, Function.update_same]
    exact congrArg (fun t => some (h.nextErr :: t))
      (ancestors_eq_of_Ancestry _ l 999 _ hchain2 (by omega))
  · intro c _ hc hcl hcm
    exact hcl ((hmem c hc).1 hcm)

/-- Witness of the amended C20 on the test file: `errLevel2.From(errLevel1)`.  The receiver
`errLevel2` has the cause `errLevel1` (address 1), and the source `errLevel1` has the single
ancestor `errLevel0` (address 0): the result has the parents 4 and 0, and the previous cause,
address 1, is not among them. -/
theorem From_replaces_cause_witness :
    (∃ (r : Error) (h2 : Heap),
      errLevel2.From testLib 1001 testHeap (.cerror errLevel1) = .ret (r, h2) ∧
      h2.errs testHeap.nextErr = errLevel1 ∧
      errLevel1.GetParents 1001 testHeap = some [0] ∧
      errLevel1.GetParents 1001 h2 = some [0] ∧
      r.GetParents 1001 h2 = some (testHeap.nextErr :: [0]) ∧
      (∀ a, a < testHeap.nextErr → (a ∈ testHeap.nextErr :: [0] ↔ a ∈ [0])) ∧
      (∀ c, errLevel2.ComesFrom = some c → c < testHeap.nextErr → c ∉ [0] →
        c ∉ testHeap.nextErr :: [0])) ∧
    errLevel1.Is 3 testHeap errLevel0 = some true ∧
    (∃ (r : Error) (h2 : Heap),
      errLevel1.From testLib 1001 testHeap (.cerror errLevelX) = .ret (r, h2) ∧
      r.Is 3 h2 errLevel0 = some false) :=
  From_replaces_cause testLib testHeap errLevel2 errLevel1 [0] 1001 (by decide) (by decide)
    (by decide) (by decide)

/-! ## `SetParam` and the order of the positions -/

/-- C19 fails as stated: on the template "{1}", filling position 1 with "{2}" and then
position 2 with "x" gives "x", while filling position 2 first gives "{2}". -/
theorem SetParam_order_matters :
    (1 : Int) ≠ 2 ∧
    ((({ Error.zero with Cause := "{1}" } : Error).SetParam 1 "{2}").SetParam 2 "x").Cause
      = "x" ∧
    ((({ Error.zero with Cause := "{1}" } : Error).SetParam 2 "x").SetParam 1 "{2}").Cause
      = "{2}" ∧
    ((({ Error.zero with Cause := "{1}" } : Error).SetParam 1 "{2}").SetParam 2 "x").Cause
      ≠ ((({ Error.zero with Cause := "{1}" } : Error).SetParam 2 "x").SetParam 1 "{2}").Cause := by
  decide

/-- C19, amended: when the cause template of `n` is `a ++ "{p}" ++ b ++ "{q}" ++ c` with
`p ≠ q`, and neither `a`, nor `b`, nor the value `v` given to the placeholder that comes
first contains an opening brace, filling `p` with `v` then `q` with `w`, and filling `q` with
`w` then `p` with `v`, give the same cause template, `a ++ v ++ b ++ w ++ c`. -/
theorem SetParam_order_independent (n : Error) (p q : Int) (v w : String)
    (a b c : List Char) (hpq : p ≠ q)
    (hs : n.Cause.data = a ++ ("\x7b" ++ strconv.Itoa p ++ "\x7d").data ++ b
      ++ ("\x7b" ++ strconv.Itoa q ++ "\x7d").data ++ c)
    (ha : '\x7b' ∉ a) (hb : '\x7b' ∉ b) (hv : '\x7b' ∉ v.data) :
    ((n.SetParam p v).SetParam q w).Cause = ((n.SetParam q w).SetParam p v).Cause ∧
    ((n.SetParam p v).SetParam q w).Cause = ⟨a ++ v.data ++ b ++ w.data ++ c⟩ := by
  have hxy : (strconv.Itoa q).data ≠ (strconv.Itoa p).data :=
    fun h => hpq (Itoa_injective _ _ (String.ext h)).symm
  have hxc : '\x7d' ∉ (strconv.Itoa q).data := fun hm => (Itoa_mem q _ hm).2 rfl
  have hyc : '\x7d' ∉ (strconv.Itoa p).data := fun hm => (Itoa_mem p _ hm).2 rfl
  have hyb : '\x7b' ∉ (strconv.Itoa p).data := fun hm => (Itoa_mem p _ hm).1 rfl
  rw [placeholder_data, placeholder_data] at hs
  simp only [List.append_assoc] at hs
  -- filling `p` first
  have hidxP : strings.Index n.Cause.data ('\x7b' :: ((strconv.Itoa p).data ++ ['\x7d']))
      = some a.length := by
    rw [hs, Index_append_skip _ a _ ha, Index_self]
    simp
  have h1 := SetParam_at_idx n p v a _ hs hidxP
  have h1b : (n.SetParam p v).Cause.data
      = (a ++ (v.data ++ b))
        ++ ('\x7b' :: ((strconv.Itoa q).data ++ ['\x7d']) ++ c) := by
    rw [h1]
    simp only [List.append_assoc]
  have havb : '\x7b' ∉ a ++ (v.data ++ b) := by
    simp only [List.mem_append, not_or]
    exact ⟨ha, hv, hb⟩
  have hidxQ1 : strings.Index (n.SetParam p v).Cause.data
      ('\x7b' :: ((strconv.Itoa q).data ++ ['\x7d'])) = some (a ++ (v.data ++ b)).length := by
    rw [h1b, Index_append_skip _ _ _ havb, Index_self]
    simp
  have h12 := SetParam_at_idx (n.SetParam p v) q w _ c h1b hidxQ1
  -- filling `q` first
  have hsq : n.Cause.data
      = (a ++ ('\x7b' :: ((strconv.Itoa p).data ++ ['\x7d']) ++ b))
        ++ ('\x7b' :: ((strconv.Itoa q).data ++ ['\x7d']) ++ c) := by
    rw [hs]
    simp only [List.append_assoc]
  have hidxQ : strings.Index n.Cause.data ('\x7b' :: ((strconv.Itoa q).data ++ ['\x7d']))
      = some (a ++ ('\x7b' :: ((strconv.Itoa p).data ++ ['\x7d']) ++ b)).length := by
    rw [hs, Index_append_skip _ a _ ha, Index_skip_other _ _ _ hxy hxc hyc hyb,
      Index_append_skip _ b _ hb, Index_self]
    simp only [Option.map_some', List.length_append, List.length_cons]
    congr 1
    omega
  have h2 := SetParam_at_idx n q w _ c hsq hidxQ
  have h2b : (n.SetParam q w).Cause.data
      = a ++ ('\x7b' :: ((strconv.Itoa p).data ++ ['\x7d']) ++ (b ++ (w.data ++ c))) := by
    rw [h2]
    simp only [List.append_assoc]
  have hidxP2 : strings.Index (n.SetParam q w).Cause.data
      ('\x7b' :: ((strconv.Itoa p).data ++ ['\x7d'])) = some a.length := by
    rw [h2b, Index_append_skip _ a _ ha, Index_self]
    simp
  have h21 := SetParam_at_idx (n.SetParam q w) p v a _ h2b hidxP2
  refine ⟨String.ext ?_, String.ext ?_⟩
  · rw [h12, h21]
    simp only [List.append_assoc]
  · rw [h12]
    simp only [List.append_assoc]

/-- Witness of the amended C19 on the template and the values of the test file. -/
theorem SetParam_order_independent_witness :
    ((errLevel0.SetParam 1 "password").SetParam 2 "6").Cause
      = ((errLevel0.SetParam 2 "6").SetParam 1 "password").Cause ∧
    ((errLevel0.SetParam 1 "password").SetParam 2 "6").Cause
      = ⟨"\x27".data ++ "password".data ++ "\x27 lower than ".data ++ "6".data ++ []⟩ :=
  SetParam_order_independent errLevel0 1 2 "password" "6" "\x27".data
    "\x27 lower than ".data [] (by decide) (by decide) (by decide) (by decide) (by decide)

end cerror
